import Mathlib

/-!
Shallow embedding of the StripeSPA reservation core.

Source of truth:
* `src/lib/db.js` — inventory / reservation data access (`getStocksMap`,
  `upsertInventory`, `reserveStock`, `releaseReservation`,
  `commitReservationBySession`, `linkReservationToSession`,
  `findReservedReservationIdBySession`);
* `src/unnamed/part_000` — the same module plus the durable token-bucket
  `rateLimit`.

Modelling conventions:
* The Postgres `inventory` table (`price_id TEXT PRIMARY KEY, stock INTEGER
  NOT NULL CHECK (stock >= 0)`) is a function `String → Option Int`:
  `none` means "no row for this price_id"; the primary key makes at most one
  row per key, which the function space captures intrinsically.  The
  `CHECK (stock >= 0)` constraint is modelled on every write that could
  violate it: such a write raises a store failure and the enclosing
  transaction rolls back.
* The `reservations` table is a list of rows (append-style log, as created
  by the code).  Its composite primary key `(reservation_id, price_id)` is
  modelled by making `INSERT` fail when a row with the same pair already
  exists (Postgres raises a unique-violation and the transaction aborts).
* Each public operation is one SQL transaction: operations return the new
  durable state paired with `Option` of an error; on an error the `catch`
  blocks in the source issue `ROLLBACK`, so the durable state returned with
  an error is the input state unchanged.
* JS numbers that the code immediately coerces with `Number(x) || 0` (or
  compares/stores through INTEGER columns) are modelled as `Int`.  The one
  place the code floors a possibly fractional number (`Math.floor(stock)` in
  `upsertInventory`) takes a `ℚ` argument and stores `⌊stock⌋`.
* `Date.now()` is passed in explicitly as an integer `now`.
-/

/-- `status` column of a reservation row: the code only ever writes the
strings `'reserved'`, `'committed'`, `'released'`. -/
inductive Status where
  | reserved
  | committed
  | released
deriving DecidableEq, Repr

/-- One row of the `reservations` table (`src/lib/db.js`, `initSchema`). -/
structure ResRow where
  reservationId : String
  sessionId : Option String
  price : String
  quantity : Int
  status : Status
  createdAt : Int
deriving DecidableEq, Repr

/-- One element of the `items` argument of `reserveStock`: the code reads
`item.price` and `item.quantity`.  `quantity` is the integer value of the
JS coercion `Number(item.quantity) || 0` (missing / NaN quantities coerce
to `0` and are caught by the `qty <= 0` guard). -/
structure Item where
  price : String
  quantity : Int
deriving DecidableEq, Repr

/-- Durable state of the two ledgers: the `inventory` table as a map from
`price_id` to `stock` (`none` = no row) and the `reservations` table as a
row log. -/
structure DB where
  inventory : String → Option Int
  reservations : List ResRow

/-- Errors thrown inside `reserveStock`'s transaction:
`Invalid quantity`, `Insufficient stock for item <price>`, and the
unique-violation Postgres raises when the `(reservation_id, price_id)`
primary key of `reservations` already exists. -/
inductive ReserveErr where
  | invalidQuantity
  | insufficientStock (price : String)
  | pkViolation
deriving DecidableEq, Repr

/-- A store-level failure: violating the `CHECK (stock >= 0)` constraint of
the `inventory` table. -/
inductive StoreFailure where
  | checkViolation
deriving DecidableEq, Repr

/-- `UPDATE inventory SET stock = stock - $1 WHERE price_id = $2 AND
stock >= $1` (`src/lib/db.js:61`): affects one row exactly when a row for
`price` exists and its stock is at least `qty`; returns the updated
inventory, or `none` when `rowCount === 0`. -/
def condDecrement (inventory : String → Option Int) (price : String) (qty : Int) :
    Option (String → Option Int) :=
  match inventory price with
  | none => none
  | some stock =>
    if qty ≤ stock then
      some (fun p => if p = price then some (stock - qty) else inventory p)
    else
      none

/-- The `for (const item of items)` loop inside `reserveStock`'s
transaction (`src/lib/db.js:57-71`), threading the uncommitted state:
guard `qty <= 0`, conditional decrement, then
`INSERT INTO reservations (reservation_id, session_id, price_id, quantity,
status, created_at) VALUES ($1, null, $2, $3, 'reserved', now)`; the
insert raises a unique violation if a row with the same
`(reservation_id, price_id)` already exists. -/
def reserveGo (now : Int) (reservationId : String) :
    DB → List Item → Except ReserveErr DB
  | db, [] => .ok db
  | db, item :: rest =>
    let qty := item.quantity
    if qty ≤ 0 then
      .error .invalidQuantity
    else
      match condDecrement db.inventory item.price qty with
      | none => .error (.insufficientStock item.price)
      | some inv' =>
        if ∃ r ∈ db.reservations,
            r.reservationId = reservationId ∧ r.price = item.price then
          .error .pkViolation
        else
          reserveGo now reservationId
            ⟨inv', db.reservations ++
              [⟨reservationId, none, item.price, qty, .reserved, now⟩]⟩ rest

/-- `reserveStock(reservationId, items)` (`src/lib/db.js:52-79`): `BEGIN`,
the per-item loop, `COMMIT`; any thrown error triggers `ROLLBACK`, so with
an error the durable state is the input state. -/
def reserveStock (db : DB) (reservationId : String) (now : Int) (items : List Item) :
    DB × Option ReserveErr :=
  match reserveGo now reservationId db items with
  | .ok db' => (db', none)
  | .error e => (db, some e)

/-- `SELECT price_id, quantity FROM reservations WHERE reservation_id = $1
AND status = 'reserved'` (`src/lib/db.js:85-88`). -/
def reservedRowsOf (db : DB) (reservationId : String) : List ResRow :=
  db.reservations.filter
    (fun r => decide (r.reservationId = reservationId ∧ r.status = .reserved))

/-- The `for (const row of res.rows)` loop of `releaseReservation`
(`src/lib/db.js:89-91`): `UPDATE inventory SET stock = stock + $1 WHERE
price_id = $2` for each selected row — zero rows affected (silently) when
the price has no inventory row; the `CHECK (stock >= 0)` constraint aborts
the transaction if the new stock would be negative. -/
def releaseLoop (inventory : String → Option Int) :
    List ResRow → Except StoreFailure (String → Option Int)
  | [] => .ok inventory
  | row :: rest =>
    match inventory row.price with
    | none => releaseLoop inventory rest
    | some stock =>
      if stock + row.quantity < 0 then
        .error .checkViolation
      else
        releaseLoop
          (fun p => if p = row.price then some (stock + row.quantity) else inventory p)
          rest

/-- Row effect of `UPDATE reservations SET status = 'released' WHERE
reservation_id = $2 AND status = 'reserved'` (`src/lib/db.js:92-95`) on one
row. -/
def releaseMark (reservationId : String) (r : ResRow) : ResRow :=
  if r.reservationId = reservationId ∧ r.status = .reserved then
    { r with status := .released }
  else r

/-- `releaseReservation(reservationId)` (`src/lib/db.js:81-103`): `BEGIN`,
select the reserved rows, add each row's quantity back, then
`UPDATE reservations SET status = 'released' WHERE reservation_id = $2 AND
status = 'reserved'`, `COMMIT`; on a store failure `ROLLBACK` leaves the
durable state unchanged. -/
def releaseReservation (db : DB) (reservationId : String) :
    DB × Option StoreFailure :=
  match releaseLoop db.inventory (reservedRowsOf db reservationId) with
  | .error e => (db, some e)
  | .ok inv' =>
    (⟨inv', db.reservations.map (releaseMark reservationId)⟩, none)

/-- `commitReservationBySession(sessionId)` (`src/lib/db.js:105-107`):
`UPDATE reservations SET status = 'committed' WHERE session_id = $2 AND
status = 'reserved'`. -/
def commitMark (sessionId : String) (r : ResRow) : ResRow :=
  if r.sessionId = some sessionId ∧ r.status = .reserved then
    { r with status := .committed }
  else r

/-- `commitReservationBySession(sessionId)` applied to the whole table. -/
def commitReservationBySession (db : DB) (sessionId : String) : DB :=
  { db with reservations := db.reservations.map (commitMark sessionId) }

/-- `linkReservationToSession(sessionId, reservationId)`
(`src/lib/db.js:109-111`): `UPDATE reservations SET session_id = $1 WHERE
reservation_id = $2` — note: no condition on the current `session_id`. -/
def linkMark (sessionId : String) (reservationId : String) (r : ResRow) : ResRow :=
  if r.reservationId = reservationId then
    { r with sessionId := some sessionId }
  else r

/-- `linkReservationToSession(sessionId, reservationId)` applied to the
whole table. -/
def linkReservationToSession (db : DB) (sessionId : String) (reservationId : String) : DB :=
  { db with reservations := db.reservations.map (linkMark sessionId reservationId) }

/-- `findReservedReservationIdBySession(sessionId)`
(`src/lib/db.js:113-116`): `SELECT reservation_id FROM reservations WHERE
session_id = $1 AND status = 'reserved' LIMIT 1` (row order modelled as
list order). -/
def findReservedReservationIdBySession (db : DB) (sessionId : String) : Option String :=
  (db.reservations.find?
      (fun r => decide (r.sessionId = some sessionId ∧ r.status = .reserved))).map
    (fun r => r.reservationId)

/-- `upsertInventory(priceId, stock)` (`src/lib/db.js:45-50`):
`INSERT INTO inventory (price_id, stock) VALUES ($1, $2) ON CONFLICT
(price_id) DO UPDATE SET stock = EXCLUDED.stock` with `Math.floor(stock)`
as the value; the `CHECK (stock >= 0)` constraint rejects a negative
floored value. -/
def upsertInventory (db : DB) (priceId : String) (stock : ℚ) :
    DB × Option StoreFailure :=
  let v : Int := ⌊stock⌋
  if v < 0 then
    (db, some .checkViolation)
  else
    ({ db with
        inventory := fun p => if p = priceId then some v else db.inventory p }, none)

/-- `getStocksMap(priceIds)` (`src/lib/db.js:37-43`): returns `{}` for an
empty input; otherwise builds a JS object holding one entry per requested
`price_id` that has an inventory row (`Number(row.stock) || 0` is the
identity on the INTEGER stock values, `0` included); requested keys with no
row are simply absent from the object. -/
def getStocksMap (db : DB) (priceIds : List String) : List (String × Int) :=
  if priceIds.isEmpty then []
  else
    priceIds.filterMap (fun p => (db.inventory p).map (fun s => (p, s)))

/-- One row of the `rate_limits` table (`src/unnamed/part_000`,
`initSchema`). -/
structure Bucket where
  tokens : Int
  lastRefillMs : Int
deriving DecidableEq, Repr

/-- Return value of `rateLimit`: `{ allowed, tokens }`. -/
structure RateLimitResult where
  allowed : Bool
  tokens : Int
deriving DecidableEq, Repr

/-- `rateLimit({ key, capacity, refillTokens, refillIntervalMs })`
(`src/unnamed/part_000:125-162`) for one key, returning the result and the
durable row for that key after the transaction commits.
`cur` is the `SELECT ... FOR UPDATE` result (`none` = no row yet).
Faithful JS details: `tokens = Number(row.tokens) || 0` is the identity on
integers (`0 || 0 = 0`); `lastRefill = Number(row.last_refill_ms) || now`
replaces a stored `0` by `now`; the refill branch persists both fields,
the decrement persists only `tokens`, and the reject path persists nothing
beyond the refill (so a stored `last_refill_ms` of `0` stays `0` unless
the refill branch runs). -/
def rateLimit (cur : Option Bucket) (now capacity refillTokens refillIntervalMs : Int) :
    RateLimitResult × Bucket :=
  let tokens0 : Int := match cur with
    | none => capacity
    | some b => b.tokens
  let lastRefill0 : Int := match cur with
    | none => now
    | some b => if b.lastRefillMs = 0 then now else b.lastRefillMs
  let stored0 : Bucket := match cur with
    | none => ⟨capacity, now⟩
    | some b => b
  let elapsed : Int := max 0 (now - lastRefill0)
  let refilled : Int × Bucket :=
    if refillIntervalMs ≤ elapsed then
      let increments := elapsed / refillIntervalMs
      let t := min capacity (tokens0 + increments * refillTokens)
      (t, ⟨t, lastRefill0 + increments * refillIntervalMs⟩)
    else
      (tokens0, stored0)
  if refilled.1 ≤ 0 then
    (⟨false, 0⟩, refilled.2)
  else
    (⟨true, refilled.1 - 1⟩, ⟨refilled.1 - 1, refilled.2.lastRefillMs⟩)

/-- The rate-limiter check exactly as the specification describes it for an
existing bucket (§4.2): `elapsed = max(0, now − lastRefillAt)`; if
`elapsed ≥ refillIntervalMs` then with
`wholeIntervals = floor(elapsed / refillIntervalMs)` set
`tokens = min(capacity, tokens + wholeIntervals · refillAmount)` and
`lastRefillAt = lastRefillAt + wholeIntervals · refillIntervalMs`; then
reject with `(false, 0)` when `tokens ≤ 0`, else decrement and return
`(true, tokens − 1)`.  Used only to compare `rateLimit` against the
specification's words. -/
def rateLimitSpec (tokens lastRefillAt now capacity refillAmount refillIntervalMs : Int) :
    RateLimitResult × Bucket :=
  let elapsed : Int := max 0 (now - lastRefillAt)
  let refilled : Int × Int :=
    if refillIntervalMs ≤ elapsed then
      let wholeIntervals := elapsed / refillIntervalMs
      (min capacity (tokens + wholeIntervals * refillAmount),
       lastRefillAt + wholeIntervals * refillIntervalMs)
    else
      (tokens, lastRefillAt)
  if refilled.1 ≤ 0 then
    (⟨false, 0⟩, ⟨refilled.1, refilled.2⟩)
  else
    (⟨true, refilled.1 - 1⟩, ⟨refilled.1 - 1, refilled.2⟩)

/-- The public operations of the core (spec §6), as invoked one after the
other on the durable state; read-only operations leave the state as is and
failed transactions roll back to the input state. -/
inductive Op where
  | reserveOp (reservationId : String) (now : Int) (items : List Item)
  | releaseOp (reservationId : String)
  | commitOp (sessionId : String)
  | linkOp (sessionId : String) (reservationId : String)
  | findOp (sessionId : String)
  | setStockOp (priceId : String) (stock : ℚ)
  | getStocksOp (priceIds : List String)

/-- Durable-state effect of one public operation. -/
def step (db : DB) : Op → DB
  | .reserveOp rid now items => (reserveStock db rid now items).1
  | .releaseOp rid => (releaseReservation db rid).1
  | .commitOp sid => commitReservationBySession db sid
  | .linkOp sid rid => linkReservationToSession db sid rid
  | .findOp _ => db
  | .setStockOp p q => (upsertInventory db p q).1
  | .getStocksOp _ => db

/-- Running a sequence of public operations. -/
def run (db : DB) (ops : List Op) : DB := ops.foldl step db

/-- The inventory invariant of spec §3: every existing stock value is
non-negative. -/
def invFunNonneg (inventory : String → Option Int) : Prop :=
  ∀ p v, inventory p = some v → 0 ≤ v

/-- `invFunNonneg` for a whole durable state. -/
def invNonneg (db : DB) : Prop := invFunNonneg db.inventory

/-- Total quantity the given rows hold against price `p`. -/
def restoreAmount (rows : List ResRow) (p : String) : Int :=
  (rows.filterMap (fun r => if r.price = p then some r.quantity else none)).sum

/-- Total quantity the given items request for price `p`. -/
def qtySum (items : List Item) (p : String) : Int :=
  (items.filterMap (fun it => if it.price = p then some it.quantity else none)).sum

/-- The reservation row `reserveStock` inserts for one item
(`src/lib/db.js:67-70`). -/
def mkRow (reservationId : String) (now : Int) (it : Item) : ResRow :=
  ⟨reservationId, none, it.price, it.quantity, .reserved, now⟩

/-- Allowed status evolution of one reservation row across one operation
(spec §4.1 state machine): unchanged, or `reserved` to `committed`, or
`reserved` to `released`. -/
def statusStep (a b : Status) : Prop :=
  b = a ∨ (a = .reserved ∧ (b = .committed ∨ b = .released))

/-- Row `r` may evolve into row `r'` in one operation: identity
`(reservationId, price)` is preserved and the status follows the state
machine. -/
def rowEvolves (r r' : ResRow) : Prop :=
  r'.reservationId = r.reservationId ∧ r'.price = r.price ∧ statusStep r.status r'.status

/-! ### Helper lemmas about the embedded operations -/

theorem condDecrement_some {inventory : String → Option Int} {price : String} {qty : Int}
    {inv' : String → Option Int} (h : condDecrement inventory price qty = some inv') :
    ∃ v, inventory price = some v ∧ qty ≤ v ∧
      inv' = fun p => if p = price then some (v - qty) else inventory p := by
  cases hv : inventory price with
  | none => simp [condDecrement, hv] at h
  | some v =>
    by_cases hle : qty ≤ v
    · refine ⟨v, rfl, hle, ?_⟩
      simp [condDecrement, hv, hle] at h
      exact h.symm
    · simp [condDecrement, hv, hle] at h

theorem qtySum_cons (it : Item) (rest : List Item) (p : String) :
    qtySum (it :: rest) p =
      (if it.price = p then it.quantity else 0) + qtySum rest p := by
  by_cases hp : it.price = p
  · simp [qtySum, List.filterMap_cons, hp]
  · simp [qtySum, List.filterMap_cons, hp]

theorem restoreAmount_cons (row : ResRow) (rest : List ResRow) (p : String) :
    restoreAmount (row :: rest) p =
      (if row.price = p then row.quantity else 0) + restoreAmount rest p := by
  by_cases hp : row.price = p
  · simp [restoreAmount, List.filterMap_cons, hp]
  · simp [restoreAmount, List.filterMap_cons, hp]

theorem reserveGo_append (now : Int) (reservationId : String) (ys : List Item) :
    ∀ (xs : List Item) (db : DB),
      reserveGo now reservationId db (xs ++ ys) =
        match reserveGo now reservationId db xs with
        | .ok db₁ => reserveGo now reservationId db₁ ys
        | .error e => .error e := by
  intro xs
  induction xs with
  | nil => intro db; rfl
  | cons x rest ih =>
    intro db
    by_cases hq : x.quantity ≤ 0
    · simp [reserveGo, hq]
    · cases hcd : condDecrement db.inventory x.price x.quantity with
      | none => simp [reserveGo, hq, hcd]
      | some inv' =>
        by_cases hdup : (∃ r ∈ db.reservations,
            r.reservationId = reservationId ∧ r.price = x.price)
        · simp [reserveGo, hq, hcd, hdup]
        · simp [reserveGo, hq, hcd, hdup, ih]

theorem reserveGo_ok_spec (now : Int) (reservationId : String) :
    ∀ (items : List Item) (db db' : DB),
      reserveGo now reservationId db items = .ok db' →
      (∀ p, db'.inventory p = (db.inventory p).map (fun v => v - qtySum items p)) ∧
      db'.reservations = db.reservations ++ items.map (mkRow reservationId now) := by
  intro items
  induction items with
  | nil =>
    intro db db' h
    cases h
    constructor
    · intro p; cases hv : db.inventory p <;> simp [qtySum, hv]
    · simp
  | cons it rest ih =>
    intro db db' h
    by_cases hq : it.quantity ≤ 0
    · simp [reserveGo, hq] at h
    · cases hcd : condDecrement db.inventory it.price it.quantity with
      | none => simp [reserveGo, hq, hcd] at h
      | some inv' =>
        by_cases hdup : (∃ r ∈ db.reservations,
            r.reservationId = reservationId ∧ r.price = it.price)
        · simp [reserveGo, hq, hcd, hdup] at h
        · simp only [reserveGo, if_neg hq, hcd, if_neg hdup] at h
          obtain ⟨hinv, hres⟩ := ih _ _ h
          obtain ⟨v, hv, hle, hinv'⟩ := condDecrement_some hcd
          constructor
          · intro p
            rw [hinv p]
            simp only [hinv']
            by_cases hp : p = it.price
            · rw [if_pos hp, qtySum_cons, if_pos hp.symm, hp, hv]
              simp only [Option.map_some', Option.some.injEq]
              omega
            · have hp' : ¬(it.price = p) := fun hc => hp hc.symm
              rw [qtySum_cons, if_neg hp']
              simp [hp]
          · rw [hres]
            simp [mkRow, List.append_assoc]

theorem reserveGo_nonneg (now : Int) (reservationId : String) :
    ∀ (items : List Item) (db db' : DB),
      reserveGo now reservationId db items = .ok db' →
      invFunNonneg db.inventory → invFunNonneg db'.inventory := by
  intro items
  induction items with
  | nil => intro db db' h hnn; cases h; exact hnn
  | cons it rest ih =>
    intro db db' h hnn
    by_cases hq : it.quantity ≤ 0
    · simp [reserveGo, hq] at h
    · cases hcd : condDecrement db.inventory it.price it.quantity with
      | none => simp [reserveGo, hq, hcd] at h
      | some inv' =>
        by_cases hdup : (∃ r ∈ db.reservations,
            r.reservationId = reservationId ∧ r.price = it.price)
        · simp [reserveGo, hq, hcd, hdup] at h
        · simp only [reserveGo, if_neg hq, hcd, if_neg hdup] at h
          refine ih _ _ h ?_
          obtain ⟨v, hv, hle, hinv'⟩ := condDecrement_some hcd
          intro p w hw
          simp only [hinv'] at hw
          by_cases hp : p = it.price
          · rw [if_pos hp] at hw
            cases hw
            omega
          · rw [if_neg hp] at hw
            exact hnn p w hw

theorem releaseLoop_nonneg :
    ∀ (rows : List ResRow) (inventory inv' : String → Option Int),
      releaseLoop inventory rows = .ok inv' →
      invFunNonneg inventory → invFunNonneg inv' := by
  intro rows
  induction rows with
  | nil => intro inv inv' h hnn; cases h; exact hnn
  | cons row rest ih =>
    intro inv inv' h hnn
    cases hrp : inv row.price with
    | none =>
      simp only [releaseLoop, hrp] at h
      exact ih _ _ h hnn
    | some stock =>
      by_cases hneg : stock + row.quantity < 0
      · simp [releaseLoop, hrp, hneg] at h
      · simp only [releaseLoop, hrp, if_neg hneg] at h
        refine ih _ _ h ?_
        intro p w hw
        by_cases hp : p = row.price
        · simp only [if_pos hp] at hw
          cases hw
          omega
        · simp only [if_neg hp] at hw
          exact hnn p w hw

theorem releaseLoop_spec :
    ∀ (rows : List ResRow) (inventory : String → Option Int),
      invFunNonneg inventory → (∀ r ∈ rows, 0 ≤ r.quantity) →
      ∃ inv', releaseLoop inventory rows = .ok inv' ∧
        ∀ p, inv' p = (inventory p).map (fun v => v + restoreAmount rows p) := by
  intro rows
  induction rows with
  | nil =>
    intro inv hnn _
    refine ⟨inv, rfl, ?_⟩
    intro p
    cases hv : inv p <;> simp [restoreAmount, hv]
  | cons row rest ih =>
    intro inv hnn hq
    cases hrp : inv row.price with
    | none =>
      obtain ⟨inv', hrun, hpt⟩ := ih inv hnn (fun r hr => hq r (List.mem_cons_of_mem _ hr))
      refine ⟨inv', ?_, ?_⟩
      · simp only [releaseLoop, hrp]
        exact hrun
      · intro p
        rw [hpt p, restoreAmount_cons]
        by_cases hp : row.price = p
        · rw [← hp, hrp]
          simp
        · rw [if_neg hp]
          simp
    | some stock =>
      have hst : 0 ≤ stock := hnn _ _ hrp
      have hq0 : 0 ≤ row.quantity := hq row (List.mem_cons_self _ _)
      have hneg : ¬(stock + row.quantity < 0) := by omega
      have hnn₁ : invFunNonneg
          (fun p => if p = row.price then some (stock + row.quantity) else inv p) := by
        intro p w hw
        by_cases hp : p = row.price
        · simp only [if_pos hp] at hw; cases hw; omega
        · simp only [if_neg hp] at hw; exact hnn p w hw
      obtain ⟨inv', hrun, hpt⟩ :=
        ih _ hnn₁ (fun r hr => hq r (List.mem_cons_of_mem _ hr))
      refine ⟨inv', ?_, ?_⟩
      · simp only [releaseLoop, hrp, if_neg hneg]
        exact hrun
      · intro p
        rw [hpt p, restoreAmount_cons]
        by_cases hp : p = row.price
        · rw [if_pos hp, if_pos hp.symm, hp, hrp]
          simp only [Option.map_some', Option.some.injEq]
          omega
        · have hp' : ¬(row.price = p) := fun hc => hp hc.symm
          rw [if_neg hp, if_neg hp']
          simp

theorem list_map_self {α : Type} (f : α → α) :
    ∀ (l : List α), (∀ x ∈ l, f x = x) → l.map f = l := by
  intro l
  induction l with
  | nil => intro _; rfl
  | cons x rest ih =>
    intro h
    simp only [List.map_cons, h x (List.mem_cons_self _ _),
      ih (fun y hy => h y (List.mem_cons_of_mem _ hy))]

/-! ### Concrete states used by witnesses and counterexamples -/

/-- A small inventory: `p1` has stock 5, `p2` has stock 0, nothing else has
a row; no reservation rows. -/
def db0 : DB :=
  ⟨fun p => if p = "p1" then some 5 else if p = "p2" then some 0 else none, []⟩

/-- A state with no inventory rows and no reservation rows. -/
def dbEmpty : DB := ⟨fun _ => none, []⟩

/-! ### C1 -/

/-- Claim C1: `reserve(reservationId, items)` is all-or-nothing.  Any error
leaves the durable state exactly as it was (the transaction rolls back);
if all earlier items succeeded and an item's conditional decrement affects
zero rows, the whole call fails with `InsufficientStock` for that item's
key and the state is unchanged; and a successful call decrements every
item's stock by its quantity and appends one `reserved` row with null
session per item. -/
theorem C1_reserve_all_or_nothing (db : DB) (reservationId : String) (now : Int)
    (items : List Item) :
    (∀ e, (reserveStock db reservationId now items).2 = some e →
       (reserveStock db reservationId now items).1 = db) ∧
    (∀ (pre : List Item) (item : Item) (post : List Item) (db₁ : DB),
       items = pre ++ item :: post →
       reserveGo now reservationId db pre = .ok db₁ →
       0 < item.quantity →
       condDecrement db₁.inventory item.price item.quantity = none →
       reserveStock db reservationId now items =
         (db, some (ReserveErr.insufficientStock item.price))) ∧
    ((reserveStock db reservationId now items).2 = none →
       (∀ p, (reserveStock db reservationId now items).1.inventory p =
          (db.inventory p).map (fun v => v - qtySum items p)) ∧
       (reserveStock db reservationId now items).1.reservations =
         db.reservations ++ items.map (mkRow reservationId now)) := by
  refine ⟨?_, ?_, ?_⟩
  · intro e he
    cases hr : reserveGo now reservationId db items with
    | ok db' => simp [reserveStock, hr] at he
    | error e' => simp [reserveStock, hr]
  · intro pre item post db₁ hsplit hpre hq hcd
    subst hsplit
    have happ := reserveGo_append now reservationId (item :: post) pre db
    rw [hpre] at happ
    have hq' : ¬ item.quantity ≤ 0 := by omega
    have hstep : reserveGo now reservationId db₁ (item :: post) =
        .error (.insufficientStock item.price) := by
      simp [reserveGo, hq', hcd]
    simp [reserveStock, happ, hstep]
  · intro hnone
    cases hr : reserveGo now reservationId db items with
    | error e => simp [reserveStock, hr] at hnone
    | ok db' =>
      have hspec := reserveGo_ok_spec now reservationId items db db' hr
      simpa [reserveStock, hr] using hspec

/-- Witness for C1 at concrete inputs: reserving 1 unit of `p2` (stock 0)
from `db0` fails with `InsufficientStock "p2"` and leaves the state
unchanged, and a successful reservation of 2 units of `p1` decrements the
stock as specified. -/
theorem C1_reserve_all_or_nothing_witness :
    reserveStock db0 "r2" 7 [⟨"p2", 1⟩] =
      (db0, some (ReserveErr.insufficientStock "p2")) ∧
    (∀ p, (reserveStock db0 "r1" 7 [⟨"p1", 2⟩]).1.inventory p =
       (db0.inventory p).map (fun v => v - qtySum [⟨"p1", 2⟩] p)) := by
  constructor
  · exact (C1_reserve_all_or_nothing db0 "r2" 7 [⟨"p2", 1⟩]).2.1
      [] ⟨"p2", 1⟩ [] db0 rfl rfl (by decide) rfl
  · exact ((C1_reserve_all_or_nothing db0 "r1" 7 [⟨"p1", 2⟩]).2.2 rfl).1

/-! ### C5 -/

/-- Counterexample to claim C5 as stated: `reserve` with an empty item list
does not fail with `InvalidQuantity` — it commits and succeeds (`.2 = none`);
and when an earlier item runs out of stock before a zero-quantity item is
reached, the reported error is `InsufficientStock`, not `InvalidQuantity`,
even though a quantity in the list violates the precondition. -/
theorem C5_counterexample :
    (reserveStock db0 "r9" 7 []).2 = none ∧
    (reserveStock db0 "rX" 0 [⟨"p2", 5⟩, ⟨"p1", 0⟩]).2 =
      some (ReserveErr.insufficientStock "p2") := by
  constructor <;> rfl

/-- Claim C5 (amended): `reserve` with an empty item list succeeds with no
effect (the loop body never runs and the transaction commits); when the
loop reaches an item whose coerced integer quantity is `≤ 0` (all earlier
items having succeeded), the call fails with `InvalidQuantity` and no
effect persists. -/
theorem C5_invalid_quantity (db : DB) (reservationId : String) (now : Int) :
    reserveStock db reservationId now [] = (db, none) ∧
    (∀ (items pre : List Item) (item : Item) (post : List Item) (db₁ : DB),
       items = pre ++ item :: post →
       reserveGo now reservationId db pre = .ok db₁ →
       item.quantity ≤ 0 →
       reserveStock db reservationId now items =
         (db, some ReserveErr.invalidQuantity)) := by
  constructor
  · rfl
  · intro items pre item post db₁ hsplit hpre hq
    subst hsplit
    have happ := reserveGo_append now reservationId (item :: post) pre db
    rw [hpre] at happ
    have hstep : reserveGo now reservationId db₁ (item :: post) =
        .error .invalidQuantity := by
      simp [reserveGo, hq]
    simp [reserveStock, happ, hstep]

/-- Witness for C5 (amended) at concrete inputs. -/
theorem C5_invalid_quantity_witness :
    reserveStock db0 "r0" 7 [] = (db0, none) ∧
    reserveStock db0 "r1" 7 [⟨"p1", 0⟩] = (db0, some ReserveErr.invalidQuantity) := by
  constructor
  · exact (C5_invalid_quantity db0 "r0" 7).1
  · exact (C5_invalid_quantity db0 "r1" 7).2 [⟨"p1", 0⟩] [] ⟨"p1", 0⟩ [] db0 rfl rfl
      (by decide)

/-! ### C3 -/

theorem releaseMark_idem (reservationId : String) (r : ResRow) :
    releaseMark reservationId (releaseMark reservationId r) =
      releaseMark reservationId r := by
  by_cases hc : r.reservationId = reservationId ∧ r.status = Status.reserved
  · simp [releaseMark, hc]
  · simp [releaseMark, hc]

/-- Claim C3: `release(reservationId)` succeeds, adds each reserved row's
quantity back to the matching item's stock exactly once (rows whose price
has no inventory row add nothing, and absent prices stay absent), marks
exactly the reserved rows of the reservation `released`, is idempotent
(a second `release` returns success and changes nothing), and is a
successful no-op when the reservation has no reserved rows (unknown id, or
all rows already committed/released). -/
theorem C3_release_exactly_once (db : DB) (reservationId : String)
    (hv : invNonneg db)
    (hq : ∀ r ∈ reservedRowsOf db reservationId, 0 ≤ r.quantity) :
    (releaseReservation db reservationId).2 = none ∧
    (∀ p, (releaseReservation db reservationId).1.inventory p =
       (db.inventory p).map
         (fun v => v + restoreAmount (reservedRowsOf db reservationId) p)) ∧
    (releaseReservation db reservationId).1.reservations =
      db.reservations.map (releaseMark reservationId) ∧
    releaseReservation (releaseReservation db reservationId).1 reservationId =
      ((releaseReservation db reservationId).1, none) ∧
    (reservedRowsOf db reservationId = [] →
      (releaseReservation db reservationId).1 = db) := by
  obtain ⟨inv', hrun, hpt⟩ :=
    releaseLoop_spec (reservedRowsOf db reservationId) db.inventory hv hq
  have hrr : releaseReservation db reservationId =
      (⟨inv', db.reservations.map (releaseMark reservationId)⟩, none) := by
    simp [releaseReservation, hrun]
  refine ⟨by rw [hrr], ?_, by rw [hrr], ?_, ?_⟩
  · intro p
    rw [hrr]
    exact hpt p
  · rw [hrr]
    have hempty : reservedRowsOf
        (⟨inv', db.reservations.map (releaseMark reservationId)⟩ : DB)
        reservationId = [] := by
      unfold reservedRowsOf
      rw [List.filter_eq_nil_iff]
      intro a ha
      simp only [List.mem_map] at ha
      obtain ⟨r, hr, rfl⟩ := ha
      simp only [decide_eq_true_eq]
      by_cases hc : r.reservationId = reservationId ∧ r.status = Status.reserved
      · simp [releaseMark, hc]
      · simp [releaseMark, hc]
    simp only [releaseReservation, hempty, releaseLoop]
    rw [List.map_map]
    have hmm : List.map (releaseMark reservationId ∘ releaseMark reservationId)
        db.reservations = List.map (releaseMark reservationId) db.reservations :=
      List.map_congr_left (fun r _ => releaseMark_idem reservationId r)
    rw [hmm]
  · intro hempty
    have hall : ∀ r ∈ db.reservations,
        ¬(r.reservationId = reservationId ∧ r.status = Status.reserved) := by
      intro r hr
      have hfil := List.filter_eq_nil_iff.mp hempty r hr
      simpa using hfil
    have hmapid : db.reservations.map (releaseMark reservationId) =
        db.reservations :=
      list_map_self _ _ (fun r hr => by
        unfold releaseMark
        rw [if_neg (hall r hr)])
    simp only [releaseReservation, hempty, releaseLoop, hmapid]

/-- An inventory with `p1` in stock 2 and a single reserved row holding
3 units of `p1` under reservation `r1`. -/
def dbR : DB :=
  ⟨fun p => if p = "p1" then some 2 else none,
   [⟨"r1", none, "p1", 3, .reserved, 7⟩]⟩

/-- Witness for C3 at a concrete state: releasing `r1` succeeds, restores
the stock pointwise as specified, and a second release is a successful
no-op. -/
theorem C3_release_exactly_once_witness :
    (releaseReservation dbR "r1").2 = none ∧
    (∀ p, (releaseReservation dbR "r1").1.inventory p =
       (dbR.inventory p).map
         (fun v => v + restoreAmount (reservedRowsOf dbR "r1") p)) ∧
    releaseReservation (releaseReservation dbR "r1").1 "r1" =
      ((releaseReservation dbR "r1").1, none) := by
  have hv : invNonneg dbR := by
    intro p v hvp
    by_cases hp : p = "p1"
    · simp [dbR, hp] at hvp
      omega
    · simp [dbR, hp] at hvp
  have hq : ∀ r ∈ reservedRowsOf dbR "r1", 0 ≤ r.quantity := by decide
  obtain ⟨h1, h2, _h3, h4, _h5⟩ := C3_release_exactly_once dbR "r1" hv hq
  exact ⟨h1, h2, h4⟩

/-! ### C6 -/

theorem commitMark_idem (sessionId : String) (r : ResRow) :
    commitMark sessionId (commitMark sessionId r) = commitMark sessionId r := by
  by_cases hc : r.sessionId = some sessionId ∧ r.status = Status.reserved
  · simp [commitMark, hc]
  · simp [commitMark, hc]

/-- Claim C6: `commitBySession(sessionId)` never touches the inventory
(stock is never restored), transitions exactly the rows with that session
and status `reserved` to `committed` (every other row is unchanged, as the
row map `commitMark` states), and is idempotent: a second call affects
zero rows. -/
theorem C6_commit_frame (db : DB) (sessionId : String) :
    (commitReservationBySession db sessionId).inventory = db.inventory ∧
    (commitReservationBySession db sessionId).reservations =
      db.reservations.map (commitMark sessionId) ∧
    commitReservationBySession (commitReservationBySession db sessionId) sessionId =
      commitReservationBySession db sessionId := by
  refine ⟨rfl, rfl, ?_⟩
  simp only [commitReservationBySession]
  rw [List.map_map]
  have hmm : List.map (commitMark sessionId ∘ commitMark sessionId)
      db.reservations = List.map (commitMark sessionId) db.reservations :=
    List.map_congr_left (fun r _ => commitMark_idem sessionId r)
  rw [hmm]

/-! ### C8 -/

theorem linkMark_idem (sessionId reservationId : String) (r : ResRow) :
    linkMark sessionId reservationId (linkMark sessionId reservationId r) =
      linkMark sessionId reservationId r := by
  by_cases hc : r.reservationId = reservationId
  · simp [linkMark, hc]
  · simp [linkMark, hc]

/-- A state with a single reservation row that is already linked to
session `sA`. -/
def dbLink : DB := ⟨fun _ => none, [⟨"r1", some "sA", "p1", 1, .reserved, 0⟩]⟩

/-- Counterexample to claim C8 as stated: the update has no
`session_id IS NULL` condition, so a row already linked to session `sA`
does not keep its sessionId — `linkToSession("sB", "r1")` overwrites it
with `sB`. -/
theorem C8_counterexample :
    ((linkReservationToSession dbLink "sB" "r1").reservations.map
        (fun r => r.sessionId)) = [some "sB"] ∧
    (some "sB" : Option String) ≠ some "sA" := by
  constructor
  · rfl
  · decide

/-- Claim C8 (amended): `linkToSession(sessionId, reservationId)` sets
`sessionId` on every row of the reservation, including rows whose
sessionId is already non-null (overwriting any existing link), leaves rows
of other reservations unchanged (row map `linkMark`), never touches the
inventory, and re-invocation with the same values is a no-op. -/
theorem C8_link_overwrites (db : DB) (sessionId reservationId : String) :
    (linkReservationToSession db sessionId reservationId).inventory =
      db.inventory ∧
    (linkReservationToSession db sessionId reservationId).reservations =
      db.reservations.map (linkMark sessionId reservationId) ∧
    linkReservationToSession
        (linkReservationToSession db sessionId reservationId)
        sessionId reservationId =
      linkReservationToSession db sessionId reservationId := by
  refine ⟨rfl, rfl, ?_⟩
  simp only [linkReservationToSession]
  rw [List.map_map]
  have hmm : List.map (linkMark sessionId reservationId ∘ linkMark sessionId reservationId)
      db.reservations = List.map (linkMark sessionId reservationId) db.reservations :=
    List.map_congr_left (fun r _ => linkMark_idem sessionId reservationId r)
  rw [hmm]

/-! ### C7 -/

/-- The old reservation table evolves into the new one respecting the
per-row state machine: no row disappears, every pre-existing row keeps its
`(reservationId, price)` identity and follows `statusStep`, and every
newly appended row has status `reserved`. -/
def rowsEvolve (old new : List ResRow) : Prop :=
  old.length ≤ new.length ∧
  (∀ (i : Nat) (r r' : ResRow), old[i]? = some r → new[i]? = some r' →
    rowEvolves r r') ∧
  (∀ (i : Nat) (r' : ResRow), old.length ≤ i → new[i]? = some r' →
    r'.status = .reserved)

theorem rowEvolves_refl (r : ResRow) : rowEvolves r r :=
  ⟨rfl, rfl, Or.inl rfl⟩

theorem rowsEvolve_refl (l : List ResRow) : rowsEvolve l l := by
  refine ⟨le_refl _, ?_, ?_⟩
  · intro i r r' h1 h2
    rw [h1] at h2
    cases h2
    exact rowEvolves_refl r
  · intro i r' hle h2
    rw [List.getElem?_eq_none hle] at h2
    cases h2

theorem rowsEvolve_map (f : ResRow → ResRow) (hf : ∀ r, rowEvolves r (f r))
    (l : List ResRow) : rowsEvolve l (l.map f) := by
  refine ⟨by simp, ?_, ?_⟩
  · intro i r r' h1 h2
    rw [List.getElem?_map, h1] at h2
    cases h2
    exact hf r
  · intro i r' hle h2
    rw [List.getElem?_map, List.getElem?_eq_none hle] at h2
    cases h2

theorem rowsEvolve_append (l₁ l₂ : List ResRow)
    (h2 : ∀ r ∈ l₂, r.status = Status.reserved) :
    rowsEvolve l₁ (l₁ ++ l₂) := by
  refine ⟨by simp, ?_, ?_⟩
  · intro i r r' ha hb
    have hlt : i < l₁.length := (List.getElem?_eq_some.mp ha).1
    rw [List.getElem?_append_left hlt, ha] at hb
    cases hb
    exact rowEvolves_refl r
  · intro i r' hle hb
    rw [List.getElem?_append_right hle] at hb
    exact h2 r' (List.getElem?_mem hb)

/-- Claim C7: across any single public operation from any state, every
reservation row's status follows the state machine `reserved → committed`
or `reserved → released` (or stays put): no operation changes the status
of a `committed` or `released` row, and every row an operation creates has
status `reserved`. -/
theorem C7_status_machine (db : DB) (op : Op) :
    rowsEvolve db.reservations (step db op).reservations := by
  cases op with
  | reserveOp rid now items =>
    cases hr : reserveGo now rid db items with
    | error e =>
      have hs : step db (.reserveOp rid now items) = db := by
        simp [step, reserveStock, hr]
      rw [hs]
      exact rowsEvolve_refl _
    | ok db' =>
      have hspec := reserveGo_ok_spec now rid items db db' hr
      have hs : (step db (.reserveOp rid now items)).reservations =
          db.reservations ++ items.map (mkRow rid now) := by
        simp [step, reserveStock, hr, hspec.2]
      rw [hs]
      refine rowsEvolve_append _ _ ?_
      intro r hrm
      simp only [List.mem_map] at hrm
      obtain ⟨it, _, rfl⟩ := hrm
      rfl
  | releaseOp rid =>
    cases hr : releaseLoop db.inventory (reservedRowsOf db rid) with
    | error e =>
      have hs : step db (.releaseOp rid) = db := by
        simp [step, releaseReservation, hr]
      rw [hs]
      exact rowsEvolve_refl _
    | ok inv' =>
      have hs : (step db (.releaseOp rid)).reservations =
          db.reservations.map (releaseMark rid) := by
        simp [step, releaseReservation, hr]
      rw [hs]
      refine rowsEvolve_map _ ?_ _
      intro r
      by_cases hc : r.reservationId = rid ∧ r.status = Status.reserved
      · unfold releaseMark
        rw [if_pos hc]
        exact ⟨rfl, rfl, Or.inr ⟨hc.2, Or.inr rfl⟩⟩
      · unfold releaseMark
        rw [if_neg hc]
        exact rowEvolves_refl r
  | commitOp sid =>
    show rowsEvolve db.reservations (db.reservations.map (commitMark sid))
    refine rowsEvolve_map _ ?_ _
    intro r
    by_cases hc : r.sessionId = some sid ∧ r.status = Status.reserved
    · unfold commitMark
      rw [if_pos hc]
      exact ⟨rfl, rfl, Or.inr ⟨hc.2, Or.inl rfl⟩⟩
    · unfold commitMark
      rw [if_neg hc]
      exact rowEvolves_refl r
  | linkOp sid rid =>
    show rowsEvolve db.reservations (db.reservations.map (linkMark sid rid))
    refine rowsEvolve_map _ ?_ _
    intro r
    by_cases hc : r.reservationId = rid
    · unfold linkMark
      rw [if_pos hc]
      exact ⟨rfl, rfl, Or.inl rfl⟩
    · unfold linkMark
      rw [if_neg hc]
      exact rowEvolves_refl r
  | findOp sid => exact rowsEvolve_refl _
  | getStocksOp ids => exact rowsEvolve_refl _
  | setStockOp p q =>
    by_cases hv : (⌊q⌋ : Int) < 0
    · have hs : step db (.setStockOp p q) = db := by
        simp [step, upsertInventory, hv]
      rw [hs]
      exact rowsEvolve_refl _
    · have hs : (step db (.setStockOp p q)).reservations = db.reservations := by
        simp [step, upsertInventory, hv]
      rw [hs]
      exact rowsEvolve_refl _

/-- A state with one already-committed reservation row linked to `s1`. -/
def dbW : DB := ⟨fun _ => none, [⟨"r1", some "s1", "p1", 1, .committed, 0⟩]⟩

/-- Witness for C7: a committed row is left untouched by a further
`commitBySession` call (the state machine allows only the identity
transition out of `committed`). -/
theorem C7_status_machine_witness :
    rowEvolves ⟨"r1", some "s1", "p1", 1, Status.committed, 0⟩
      ⟨"r1", some "s1", "p1", 1, Status.committed, 0⟩ :=
  (C7_status_machine dbW (Op.commitOp "s1")).2.1 0 _ _ rfl (by decide)

/-! ### C2 -/

theorem step_nonneg (db : DB) (op : Op) (h : invNonneg db) :
    invNonneg (step db op) := by
  cases op with
  | reserveOp rid now items =>
    cases hr : reserveGo now rid db items with
    | ok db' =>
      have hs : step db (.reserveOp rid now items) = db' := by
        simp [step, reserveStock, hr]
      rw [hs]
      exact reserveGo_nonneg now rid items db db' hr h
    | error e =>
      have hs : step db (.reserveOp rid now items) = db := by
        simp [step, reserveStock, hr]
      rw [hs]
      exact h
  | releaseOp rid =>
    cases hr : releaseLoop db.inventory (reservedRowsOf db rid) with
    | ok inv' =>
      have hs : (step db (.releaseOp rid)).inventory = inv' := by
        simp [step, releaseReservation, hr]
      intro p v hv
      rw [hs] at hv
      exact releaseLoop_nonneg _ _ _ hr h p v hv
    | error e =>
      have hs : step db (.releaseOp rid) = db := by
        simp [step, releaseReservation, hr]
      rw [hs]
      exact h
  | commitOp sid => exact h
  | linkOp sid rid => exact h
  | findOp sid => exact h
  | getStocksOp ids => exact h
  | setStockOp pr q =>
    by_cases hv : (⌊q⌋ : Int) < 0
    · have hs : step db (.setStockOp pr q) = db := by
        simp [step, upsertInventory, hv]
      rw [hs]
      exact h
    · have hs : (step db (.setStockOp pr q)).inventory =
          fun p => if p = pr then some ⌊q⌋ else db.inventory p := by
        simp [step, upsertInventory, hv]
      intro p v hvp
      rw [hs] at hvp
      by_cases hp : p = pr
      · simp only [if_pos hp] at hvp
        cases hvp
        omega
      · simp only [if_neg hp] at hvp
        exact h p v hvp

theorem run_nonneg : ∀ (ops : List Op) (db : DB),
    invNonneg db → invNonneg (run db ops)
  | [], _, h => h
  | op :: rest, db, h => run_nonneg rest (step db op) (step_nonneg db op h)

/-- Claim C2: starting from any state whose stocks are all non-negative,
after any sequence of public operations (with `setStock` called only with
non-negative values, per the claim) every stock is still non-negative; and
the conditional decrement only fires when the row exists and its stock is
at least the requested quantity. -/
theorem C2_stock_never_negative (db : DB) (ops : List Op) (h0 : invNonneg db)
    (_hset : ∀ p q, Op.setStockOp p q ∈ ops → 0 ≤ q) :
    invNonneg (run db ops) ∧
    (∀ (inventory : String → Option Int) (p : String) (q : Int)
        (inv' : String → Option Int),
      condDecrement inventory p q = some inv' →
      ∃ v, inventory p = some v ∧ q ≤ v) := by
  refine ⟨run_nonneg ops db h0, ?_⟩
  intro inventory p q inv' h
  obtain ⟨v, hv, hle, _⟩ := condDecrement_some h
  exact ⟨v, hv, hle⟩

/-- A concrete operation sequence: reserve 3 of `p1`, release it, then set
`p2` to stock 4. -/
def opsW : List Op :=
  [Op.reserveOp "r1" 0 [⟨"p1", 3⟩], Op.releaseOp "r1", Op.setStockOp "p2" 4]

/-- Witness for C2 on a concrete state and operation sequence. -/
theorem C2_stock_never_negative_witness :
    invNonneg (run db0 opsW) ∧
    (∀ (inventory : String → Option Int) (p : String) (q : Int)
        (inv' : String → Option Int),
      condDecrement inventory p q = some inv' →
      ∃ v, inventory p = some v ∧ q ≤ v) := by
  refine C2_stock_never_negative db0 opsW ?_ ?_
  · intro p v hv
    by_cases h1 : p = "p1"
    · simp [db0, h1] at hv
      omega
    · by_cases h2 : p = "p2"
      · simp [db0, h1, h2] at hv
        omega
      · simp [db0, h1, h2] at hv
  · intro p q hmem
    simp only [opsW, List.mem_cons, List.not_mem_nil, or_false] at hmem
    rcases hmem with h | h | h
    · cases h
    · cases h
    · injection h with h1 h2
      subst h2
      norm_num

/-! ### C4 -/

/-- Counterexample to claim C4 as stated: for an existing bucket whose
stored `lastRefillAt` is `0`, the code's `Number(last_refill_ms) || now`
fallback reads the timestamp as `now`, so no refill happens even though a
whole interval has elapsed — the claim's formulas (`rateLimitSpec`)
predict a refill and an allowed request, the code denies it. -/
theorem C4_counterexample :
    (rateLimit (some ⟨0, 0⟩) 10 5 3 5).1.allowed = false ∧
    (rateLimitSpec 0 0 10 5 3 5).1.allowed = true := by
  constructor <;> rfl

/-- Claim C4 (amended): for every check on an existing bucket whose stored
`lastRefillAt` is nonzero (a stored `0` is read as `now` by the `|| now`
fallback) and with a positive refill interval, the code computes exactly
the claim's refill-then-spend behaviour (`rateLimitSpec`): lazy whole-
interval refill capped at capacity, `lastRefillAt` advanced by whole
intervals (not set to `now`), rejection with zero remaining when no token
is available, else a single decrement; moreover the stored token count
never exceeds `capacity` if it started `≤ capacity`. -/
theorem C4_rate_limit (tokens lastRefillMs now capacity refillTokens
    refillIntervalMs : Int) (hl : lastRefillMs ≠ 0) (_hri : 0 < refillIntervalMs) :
    rateLimit (some ⟨tokens, lastRefillMs⟩) now capacity refillTokens
        refillIntervalMs =
      rateLimitSpec tokens lastRefillMs now capacity refillTokens
        refillIntervalMs ∧
    (tokens ≤ capacity →
      ((rateLimit (some ⟨tokens, lastRefillMs⟩) now capacity refillTokens
          refillIntervalMs).2).tokens ≤ capacity) := by
  constructor
  · simp only [rateLimit, rateLimitSpec, if_neg hl]
    by_cases hre : refillIntervalMs ≤ max 0 (now - lastRefillMs)
    · simp only [if_pos hre]
    · simp only [if_neg hre]
  · intro hcap
    simp only [rateLimit, if_neg hl]
    by_cases hre : refillIntervalMs ≤ max 0 (now - lastRefillMs)
    · simp only [if_pos hre]
      have hmin : min capacity
          (tokens + max 0 (now - lastRefillMs) / refillIntervalMs * refillTokens)
          ≤ capacity := min_le_left _ _
      split
      · exact hmin
      · simp only []
        omega
    · simp only [if_neg hre]
      split
      · exact hcap
      · simp only []
        omega

/-- Witness for C4 (amended) at a concrete bucket: tokens 2, last refill at
3, now 10, capacity 5, refill 3 per 5 ms. -/
theorem C4_rate_limit_witness :
    rateLimit (some ⟨2, 3⟩) 10 5 3 5 = rateLimitSpec 2 3 10 5 3 5 ∧
    (rateLimit (some ⟨2, 3⟩) 10 5 3 5).2.tokens ≤ 5 := by
  have h := C4_rate_limit 2 3 10 5 3 5 (by decide) (by decide)
  exact ⟨h.1, h.2 (by decide)⟩

/-! ### C9 -/

theorem getStocksMap_eq_filterMap (db : DB) (priceIds : List String) :
    getStocksMap db priceIds =
      priceIds.filterMap (fun p => (db.inventory p).map (fun s => (p, s))) := by
  cases priceIds with
  | nil => rfl
  | cons k rest => rfl

/-- Counterexample to claim C9 as stated: a requested key with no
InventoryRecord is NOT mapped to 0 — it is omitted from the returned
mapping entirely (looking it up yields nothing, not `some 0`); the
`|| 0` defaulting happens in the excluded HTTP layer, not in
`getStocksMap`. -/
theorem C9_counterexample :
    (getStocksMap dbEmpty ["p1"]).lookup "p1" = none ∧
    (none : Option Int) ≠ some 0 := by
  constructor
  · rfl
  · decide

/-- Claim C9 (amended): `getStocks(itemKeys)` returns a mapping whose
lookup at a requested key equals that key's InventoryRecord stock when the
record exists, and is absent (not 0) when no record exists; keys that were
not requested are absent; the call never fails. -/
theorem C9_getStocks_lookup (db : DB) (priceIds : List String) (p : String) :
    (getStocksMap db priceIds).lookup p =
      if p ∈ priceIds then db.inventory p else none := by
  rw [getStocksMap_eq_filterMap]
  induction priceIds with
  | nil => rfl
  | cons k rest ih =>
    by_cases hk : p = k
    · subst hk
      cases hv : db.inventory p with
      | none =>
        simp only [List.filterMap_cons, hv, Option.map_none']
        rw [ih, hv]
        simp
      | some v =>
        simp only [List.filterMap_cons, hv, Option.map_some']
        simp [List.lookup]
    · cases hv : db.inventory k with
      | none =>
        simp only [List.filterMap_cons, hv, Option.map_none']
        rw [ih]
        simp [List.mem_cons, hk]
      | some v =>
        simp only [List.filterMap_cons, hv, Option.map_some']
        rw [List.lookup]
        have hbeq : (p == k) = false := by
          simp [hk]
        rw [hbeq]
        rw [ih]
        simp [List.mem_cons, hk]

/-! ### C10 -/

/-- Claim C10: `setStock(itemKey, stock)` with non-negative `stock` always
succeeds and stores `⌊stock⌋` (truncation, never rounding up, never a
rejection) — for a fresh key and when overwriting an existing record
alike — and touches nothing else. -/
theorem C10_setStock_floor (db : DB) (priceId : String) (stock : ℚ)
    (h : 0 ≤ stock) :
    (upsertInventory db priceId stock).2 = none ∧
    (∀ p, (upsertInventory db priceId stock).1.inventory p =
      if p = priceId then some ⌊stock⌋ else db.inventory p) ∧
    (upsertInventory db priceId stock).1.reservations = db.reservations ∧
    ((⌊stock⌋ : ℚ) ≤ stock ∧ stock < ⌊stock⌋ + 1) := by
  have h0 : (0 : Int) ≤ ⌊stock⌋ := Int.floor_nonneg.mpr h
  have hneg : ¬(⌊stock⌋ < 0) := by omega
  refine ⟨?_, ?_, ?_, Int.floor_le stock, Int.lt_floor_add_one stock⟩
  · simp [upsertInventory, hneg]
  · intro p
    simp [upsertInventory, hneg]
  · simp [upsertInventory, hneg]

/-- Witness for C10: setting stock `2.7` stores exactly `2`, both when the
key is fresh (`p3`) and when it overwrites an existing record (`p1`). -/
theorem C10_setStock_floor_witness :
    (upsertInventory db0 "p3" (27 / 10)).2 = none ∧
    (upsertInventory db0 "p3" (27 / 10)).1.inventory "p3" = some 2 ∧
    (upsertInventory db0 "p1" (27 / 10)).1.inventory "p1" = some 2 := by
  have hfloor : (⌊(27 / 10 : ℚ)⌋ : Int) = 2 := by norm_num
  have h1 := C10_setStock_floor db0 "p3" (27 / 10) (by norm_num)
  have h2 := C10_setStock_floor db0 "p1" (27 / 10) (by norm_num)
  refine ⟨h1.1, ?_, ?_⟩
  · rw [h1.2.1 "p3", if_pos rfl, hfloor]
  · rw [h2.2.1 "p1", if_pos rfl, hfloor]
